import Mathlib

/-!
# Verification of `optuna/visualization/_utils.py`

A shallow embedding of the visualization helper module and proofs of the
specified properties.  Python values, distributions and frozen trials are
modelled as inductive types; each helper function of the module is translated
into a Lean definition of the same name, with raised exceptions modelled by
`Except` and emitted warnings / log messages collected in explicit lists.
-/

set_option autoImplicit false

namespace OptunaViz

/-- Python exception kinds relevant to this module. -/
inductive PyError where
  | typeError
  | valueError
  deriving DecidableEq, Repr

/-- A Python `float`, abstracted: either a finite real (modelled as a
rational) or one of the special non-finite values. -/
inductive PyFloat where
  | finite (q : ℚ)
  | nan
  | inf
  | ninf
  deriving DecidableEq, Repr

/-- Models `numpy.isfinite`: true exactly on finite floats. -/
def PyFloat.isFinite : PyFloat → Bool
  | .finite _ => true
  | _ => false

mutual
/-- A Python value as it may occur in `params` / `user_attrs` of a trial:
`None`, booleans, ints, floats, strings, lists, string-keyed dicts, and
arbitrary objects (carrying only their `str()` representation) that the
`json` module cannot encode. The list- and dict-shaped values are encoded
through the mutually inductive `PyValList` / `PyKVList` spines. -/
inductive PyVal where
  | none
  | bool (b : Bool)
  | int (n : ℤ)
  | float (x : PyFloat)
  | str (s : String)
  | vlist (xs : PyValList)
  | vdict (kvs : PyKVList)
  | obj (r : String)
  deriving DecidableEq, Repr

inductive PyValList where
  | nil
  | cons (v : PyVal) (rest : PyValList)
  deriving DecidableEq, Repr

inductive PyKVList where
  | nil
  | cons (k : String) (v : PyVal) (rest : PyKVList)
  deriving DecidableEq, Repr
end

def PyValList.ofList : List PyVal → PyValList
  | [] => .nil
  | v :: rest => .cons v (PyValList.ofList rest)

def PyKVList.ofList : List (String × PyVal) → PyKVList
  | [] => .nil
  | (k, v) :: rest => .cons k v (PyKVList.ofList rest)

/-- Models `isinstance(v, (int, float)) and not isinstance(v, bool)`: true on ints and
floats; false on booleans (a `bool` is an `int` subclass in Python, hence the
explicit exclusion in the source) and on every other kind of value. -/
def PyVal.isRealNumber : PyVal → Bool
  | .int _ => true
  | .float _ => true
  | _ => false

/-- A parameter distribution: the three kinds the module handles.
`FloatDistribution` and `IntDistribution` carry their `log` flag (the other
numeric fields are irrelevant to this module); `CategoricalDistribution`
carries its ordered tuple of choices. -/
inductive Distribution where
  | floatDist (log : Bool)
  | intDist (log : Bool)
  | categoricalDist (choices : List PyVal)
  deriving DecidableEq, Repr

/-- The value produced by applying a target accessor to a trial (or by reading
`t.value`), as seen by the subsequent `float(value)` call: either an actual
float, or a value that `float()` rejects by raising the carried exception. -/
inductive TargetVal where
  | num (x : PyFloat)
  | nonconvertible (e : PyError)
  deriving DecidableEq, Repr

/-- Models `float(value)` applied to a resolved target value. -/
def pyFloatCast : TargetVal → Except PyError PyFloat
  | .num x => .ok x
  | .nonconvertible e => .error e

/-- A `FrozenTrial` restricted to the fields this module reads.  `value`
models the `t.value` property (the single objective value used when no target
accessor is given; for a trial without a usable single value, e.g. a failed
trial whose `value` is `None`, it is `nonconvertible`).  Mappings are
insertion-ordered association lists, like Python dicts. -/
structure Trial where
  number : ℕ
  values : List PyFloat
  value : TargetVal
  params : List (String × PyVal)
  distributions : List (String × Distribution)
  user_attrs : List (String × PyVal)
  deriving DecidableEq, Repr

/-- A `Study` restricted to what `_check_plot_args` reads:
`study._is_multi_objective()`. -/
structure Study where
  isMultiObjective : Bool
  deriving DecidableEq, Repr

/-- A warning emitted through `warnings.warn`, identified by its occasion
(the message text carries exactly the data shown here). -/
inductive PyWarning where
  | defaultTargetName
  | castFail (trialNumber : ℕ)
  deriving DecidableEq, Repr

/-- A message emitted through `_logger.warning`, identified by its occasion. -/
inductive LogMsg where
  | omittedNonfinite (trialNumber : ℕ)
  deriving DecidableEq, Repr

/-- Membership test `key in d` for an association-list dict. -/
def dictContains (d : List (String × PyVal)) (k : String) : Bool :=
  d.any (fun kv => kv.1 = k)

/-- Indexing `d[key]` for an association-list dict (first binding wins, `None` when
absent; all uses in the module are guarded by a containment check). -/
def dictGet (d : List (String × PyVal)) (k : String) : PyVal :=
  match d.find? (fun kv => kv.1 = k) with
  | some kv => kv.2
  | Option.none => PyVal.none

/-- Defaulted lookup, `m.get(k, false)`-style, in a `name → bool` table. -/
def boolTableGet (m : List (String × Bool)) (k : String) : Bool :=
  match m.find? (fun kv => kv.1 = k) with
  | some kv => kv.2
  | Option.none => false

/-- Membership test `k in m` for a `name → bool` table. -/
def boolTableContains (m : List (String × Bool)) (k : String) : Bool :=
  m.any (fun kv => kv.1 = k)

/-- Assignment `m[k] = v` on a table where absent keys are appended (Python dict
assignment; the module only assigns keys it has just checked to be absent). -/
def boolTableSet (m : List (String × Bool)) (k : String) (v : Bool) :
    List (String × Bool) :=
  m ++ [(k, v)]

/-!
## `_check_plot_args`

The source normalizes a single study to a one-element sequence first; the
embedding takes the normalized list.  Raising is modelled by the `Except`
error case, the emitted warnings by the returned list.
-/

/-- Translation of `_check_plot_args(study, target, target_name)`: raises `ValueError` when
`target is None` and some study is multi-objective; otherwise warns when a
`target` is supplied while `target_name` still equals the default
`"Objective Value"`. -/
def _check_plot_args (studies : List Study) (target : Option (Trial → TargetVal))
    (target_name : String) : Except PyError (List PyWarning) :=
  if target.isNone && studies.any (fun s => s.isMultiObjective) then
    .error .valueError
  else if target.isSome && target_name = "Objective Value" then
    .ok [.defaultTargetName]
  else
    .ok []

/-!
## `_preprocess_trial_params` and the table lookups
-/

/-- The value stored into `is_log_scale` for a first-seen distribution:
`isinstance(dist, (FloatDistribution, IntDistribution)) and dist.log`. -/
def classifyLog : Distribution → Bool
  | .floatDist log => log
  | .intDist log => log
  | .categoricalDist _ => false

/-- The value stored into `is_numerical` for a first-seen distribution:
Float/Int distributions are numerical; a Categorical one is numerical iff all
of its choices are real numbers and not booleans. -/
def classifyNum : Distribution → Bool
  | .floatDist _ => true
  | .intDist _ => true
  | .categoricalDist choices => choices.all PyVal.isRealNumber

/-- The `if param not in table: table[param] = f(dist)` pattern shared by the
two table updates of the loop body. -/
def stepTable (f : Distribution → Bool) (m : List (String × Bool))
    (item : String × Distribution) : List (String × Bool) :=
  if boolTableContains m item.1 then m else boolTableSet m item.1 (f item.2)

/-- One step of the inner loop body of `_preprocess_trial_params`: given the
accumulated `(is_log_scale, is_numerical)` tables and one `(param, dist)`
item, set each table entry if the name is not yet present.  The
`assert False` branch for an unexpected distribution type is unreachable:
`Distribution` is exactly the closed set {Float, Int, Categorical}. -/
def preprocessStep (acc : List (String × Bool) × List (String × Bool))
    (item : String × Distribution) : List (String × Bool) × List (String × Bool) :=
  (stepTable classifyLog acc.1 item, stepTable classifyNum acc.2 item)

/-- Translation of `_preprocess_trial_params(trials)`: one pass over all trials and their
distribution items, building the `is_log_scale` and `is_numerical` tables. -/
def _preprocess_trial_params (trials : List Trial) :
    List (String × Bool) × List (String × Bool) :=
  trials.foldl (fun acc trial => trial.distributions.foldl preprocessStep acc) ([], [])

/-- Translation of `_is_log_scale(trials, param, is_log_scale)`: reads the precomputed table,
defaulting to `False`. -/
def _is_log_scale (_trials : List Trial) (param : String)
    (is_log_scale : List (String × Bool)) : Bool :=
  boolTableGet is_log_scale param

/-- Translation of `_is_numerical(trials, param, is_numerical)`: reads the precomputed table,
defaulting to `False`.  Note the three required positional parameters. -/
def _is_numerical (_trials : List Trial) (param : String)
    (is_numerical : List (String × Bool)) : Bool :=
  boolTableGet is_numerical param

/-!
## `_get_param_values`
-/

/-- The list comprehension
`[t.params[p_name] for t in trials if p_name in t.params]`. -/
def paramValuesRaw (trials : List Trial) (p_name : String) : List PyVal :=
  (trials.filter (fun t => dictContains t.params p_name)).map
    (fun t => dictGet t.params p_name)

/-- Translation of `_get_param_values(trials, p_name)` as written in the source: after
building `values`, the guard calls `_is_numerical(trials, p_name)` — but
`_is_numerical` requires a third positional argument (`is_numerical`), so the
call raises `TypeError` before anything is returned. -/
def _get_param_values (trials : List Trial) (p_name : String) :
    Except PyError (List PyVal) :=
  let _values := paramValuesRaw trials p_name
  Except.error PyError.typeError

/-!
## `_get_skipped_trial_numbers`
-/

/-- Translation of `_get_skipped_trial_numbers(trials, used_param_names)`: collects the
numbers of the trials whose `params` lack at least one of the used names (the
inner loop with `break` adds the number once as soon as a missing name is
found). The Python `set` is modelled as a `Finset`. -/
def _get_skipped_trial_numbers (trials : List Trial)
    (used_param_names : List String) : Finset ℕ :=
  trials.foldl
    (fun skipped trial =>
      if used_param_names.any (fun p => !dictContains trial.params p) then
        insert trial.number skipped
      else skipped)
    ∅

/-!
## `_filter_nonfinite`
-/

/-- The observable outcome of a `_filter_nonfinite` call: the warnings emitted
through `warnings.warn`, the messages emitted through `_logger.warning`
(each in emission order), and either the returned list or the raised
exception. -/
structure FilterOutput where
  warns : List PyWarning
  logs : List LogMsg
  result : Except PyError (List Trial)
  deriving Repr

/-- The loop of `_filter_nonfinite` over the remaining trials, with the target
accessor already resolved.  For each trial: apply the target, `float()` the
result — on `TypeError`/`ValueError` warn about the trial and re-raise; on a
non-finite value log (when `with_message`) and drop the trial; otherwise keep
it. -/
def filterLoop (target : Trial → TargetVal) (with_message : Bool) :
    List Trial → FilterOutput
  | [] => { warns := [], logs := [], result := .ok [] }
  | trial :: rest =>
    match pyFloatCast (target trial) with
    | .error e =>
        { warns := [.castFail trial.number], logs := [], result := .error e }
    | .ok x =>
        let o := filterLoop target with_message rest
        if x.isFinite then
          { o with result := o.result.map (fun l => trial :: l) }
        else
          { o with
            logs := (if with_message then [LogMsg.omittedNonfinite trial.number]
                     else []) ++ o.logs }

/-- The default target used when `target is None`:
`cast(float, t.value)` (the `cast` is a static-typing no-op). -/
def defaultTarget (t : Trial) : TargetVal := t.value

/-- Translation of `_filter_nonfinite(trials, target, with_message)`. -/
def _filter_nonfinite (trials : List Trial)
    (target : Option (Trial → TargetVal)) (with_message : Bool) : FilterOutput :=
  filterLoop (target.getD defaultTarget) with_message trials

/-- The target value the loop sees for a trial, given the optional accessor. -/
def resolveTarget (target : Option (Trial → TargetVal)) (t : Trial) : TargetVal :=
  (target.getD defaultTarget) t

/-!
## JSON: values, encoding, decoding and `json.dumps(..., indent=2)`
-/

mutual
/-- A JSON document as produced by Python's `json` module (which also admits
the non-standard `NaN`/`Infinity` tokens for non-finite floats, so a float
number node carries a `PyFloat`). -/
inductive Json where
  | null
  | jbool (b : Bool)
  | jint (n : ℤ)
  | jfloat (x : PyFloat)
  | jstr (s : String)
  | jarr (xs : JsonList)
  | jobj (kvs : JsonKVList)
  deriving DecidableEq, Repr

inductive JsonList where
  | nil
  | cons (v : Json) (rest : JsonList)
  deriving DecidableEq, Repr

inductive JsonKVList where
  | nil
  | cons (k : String) (v : Json) (rest : JsonKVList)
  deriving DecidableEq, Repr
end

mutual
/-- Encoding: `json.dumps(v)` succeeds exactly on values built from `None`, booleans,
ints, floats, strings, lists and dicts; an arbitrary object makes it raise
`TypeError`, modelled by `Option.none` here. -/
def toJson : PyVal → Option Json
  | .none => some .null
  | .bool b => some (.jbool b)
  | .int n => some (.jint n)
  | .float x => some (.jfloat x)
  | .str s => some (.jstr s)
  | .vlist xs => (toJsonList xs).map .jarr
  | .vdict kvs => (toJsonKV kvs).map .jobj
  | .obj _ => Option.none

def toJsonList : PyValList → Option JsonList
  | .nil => some .nil
  | .cons v rest =>
    match toJson v, toJsonList rest with
    | some j, some js => some (.cons j js)
    | _, _ => Option.none

def toJsonKV : PyKVList → Option JsonKVList
  | .nil => some .nil
  | .cons k v rest =>
    match toJson v, toJsonKV rest with
    | some j, some js => some (.cons k j js)
    | _, _ => Option.none
end

mutual
/-- Decoding, `json.loads` of a document, back to a Python value. -/
def ofJson : Json → PyVal
  | .null => .none
  | .jbool b => .bool b
  | .jint n => .int n
  | .jfloat x => .float x
  | .jstr s => .str s
  | .jarr xs => .vlist (ofJsonList xs)
  | .jobj kvs => .vdict (ofJsonKV kvs)

def ofJsonList : JsonList → PyValList
  | .nil => .nil
  | .cons v rest => .cons (ofJson v) (ofJsonList rest)

def ofJsonKV : JsonKVList → PyKVList
  | .nil => .nil
  | .cons k v rest => .cons k (ofJson v) (ofJsonKV rest)
end

mutual
/-- Models `str(v)` for a Python value, in the fidelity this module needs: a total
textual representation (only ever inspected as an opaque string by the
properties below; an `obj` prints its carried representation). -/
def pyStr : PyVal → String
  | .none => "None"
  | .bool b => if b then "True" else "False"
  | .int n => toString n
  | .float (.finite q) => toString q
  | .float .nan => "nan"
  | .float .inf => "inf"
  | .float .ninf => "-inf"
  | .str s => s
  | .vlist xs => "[" ++ pyStrList xs ++ "]"
  | .vdict kvs => "\x7b" ++ pyStrKV kvs ++ "\x7d"
  | .obj r => r

def pyStrList : PyValList → String
  | .nil => ""
  | .cons v .nil => pyStr v
  | .cons v rest => pyStr v ++ ", " ++ pyStrList rest

def pyStrKV : PyKVList → String
  | .nil => ""
  | .cons k v .nil => k ++ ": " ++ pyStr v
  | .cons k v rest => k ++ ": " ++ pyStr v ++ ", " ++ pyStrKV rest
end

/-- JSON string escaping: the escapes `json.dumps` emits for the characters
that would otherwise break the quoting (in particular, a newline inside a
string value is emitted as the two characters `\` `n`, never as a literal
newline). -/
def escapeChar (c : Char) : List Char :=
  if c = '"' then ['\\', '"']
  else if c = '\\' then ['\\', '\\']
  else if c = '\n' then ['\\', 'n']
  else if c = '\t' then ['\\', 't']
  else if c = '\r' then ['\\', 'r']
  else [c]

def escapeString (s : String) : List Char :=
  s.data.flatMap escapeChar

/-- The rendering of a float number token (`repr` of the float in CPython;
the exact decimal notation of finite values is abstracted by the rational's
canonical form, non-finite values render as the tokens `json.dumps` emits). -/
def floatTok : PyFloat → String
  | .finite q => toString q
  | .nan => "NaN"
  | .inf => "Infinity"
  | .ninf => "-Infinity"

def indentChars (n : ℕ) : List Char := List.replicate n ' '

mutual
/-- Models `json.dumps(j, indent=2)`: the serialized text of a document whose own
lines are indented by `ind` spaces.  Containers open on the current line, put
each item on its own line indented two further spaces, and close on a fresh
line at the enclosing indentation; empty containers render without any
newline. -/
def dumpJson (ind : ℕ) : Json → List Char
  | .null => "null".data
  | .jbool b => (if b then "true" else "false").data
  | .jint n => (toString n).data
  | .jfloat x => (floatTok x).data
  | .jstr s => '"' :: escapeString s ++ ['"']
  | .jarr .nil => "[]".data
  | .jarr (.cons v rest) =>
      '[' :: '\n' :: indentChars (ind + 2) ++ dumpJson (ind + 2) v ++
        dumpArr (ind + 2) rest ++ '\n' :: indentChars ind ++ [']']
  | .jobj .nil => "\x7b\x7d".data
  | .jobj (.cons k v rest) =>
      '\x7b' :: '\n' :: indentChars (ind + 2) ++
        ('"' :: escapeString k ++ ['"', ':', ' ']) ++ dumpJson (ind + 2) v ++
        dumpObj (ind + 2) rest ++ '\n' :: indentChars ind ++ ['\x7d']

/-- The remaining array items, each preceded by `",\n"` and its indent. -/
def dumpArr (ind : ℕ) : JsonList → List Char
  | .nil => []
  | .cons v rest =>
      ',' :: '\n' :: indentChars ind ++ dumpJson ind v ++ dumpArr ind rest

/-- The remaining object items, each preceded by `",\n"`, its indent and its
quoted key. -/
def dumpObj (ind : ℕ) : JsonKVList → List Char
  | .nil => []
  | .cons k v rest =>
      ',' :: '\n' :: indentChars ind ++
        ('"' :: escapeString k ++ ['"', ':', ' ']) ++ dumpJson ind v ++
        dumpObj ind rest
end

/-!
## `_make_json_compatible` and `_make_hovertext`
-/

/-- Translation of `_make_json_compatible(value)`: try `json.dumps(value)`; on success return
the value unchanged, on `TypeError` return `str(value)`. -/
def _make_json_compatible (value : PyVal) : PyVal :=
  match toJson value with
  | some _ => value
  | Option.none => .str (pyStr value)

/-- The entries of the dict literal serialized by `_make_hovertext`: number,
values, params, and — only when the (already `_make_json_compatible`-mapped)
user attributes dict is non-empty — a `"user_attrs"` entry. -/
def hoverEntries (trial : Trial) : List (String × PyVal) :=
  let user_attrs := trial.user_attrs.map (fun kv => (kv.1, _make_json_compatible kv.2))
  [("number", .int trial.number),
   ("values", .vlist (PyValList.ofList (trial.values.map PyVal.float))),
   ("params", .vdict (PyKVList.ofList trial.params))] ++
    (if user_attrs.isEmpty then []
     else [("user_attrs", .vdict (PyKVList.ofList user_attrs))])

/-- The dict literal serialized by `_make_hovertext`. -/
def hoverVal (trial : Trial) : PyVal :=
  .vdict (PyKVList.ofList (hoverEntries trial))

/-- Models `text.replace("\n", "<br>")`: since the pattern is the single character
`'\n'`, the replacement is the character-wise substitution. -/
def replaceNl : List Char → List Char
  | [] => []
  | c :: rest =>
    if c = '\n' then '<' :: 'b' :: 'r' :: '>' :: replaceNl rest
    else c :: replaceNl rest

/-- Translation of `_make_hovertext(trial)`: map the user attributes through
`_make_json_compatible`, serialize the hover dict with `indent=2`
(raising `TypeError` if a parameter or objective value is not encodable),
then replace each newline with `"<br>"`. -/
def _make_hovertext (trial : Trial) : Except PyError String :=
  match toJson (hoverVal trial) with
  | some j => .ok (String.mk (replaceNl (dumpJson 0 j)))
  | Option.none => .error .typeError

/-- Undo the line-break substitution: replace each occurrence of the marker
`"<br>"` back with a newline. -/
def undoBr : List Char → List Char
  | '<' :: 'b' :: 'r' :: '>' :: rest => '\n' :: undoBr rest
  | c :: rest => c :: undoBr rest
  | [] => []

/-- Whether a character list contains the substring `"<br>"`. -/
def hasBr : List Char → Bool
  | '<' :: 'b' :: 'r' :: '>' :: _ => true
  | _ :: rest => hasBr rest
  | [] => false

/-- The keys of a JSON object spine, in order. -/
def jsonKeys : JsonKVList → List String
  | .nil => []
  | .cons k _ rest => k :: jsonKeys rest

/-- The top-level keys of a JSON document (empty for a non-object). -/
def topKeys : Json → List String
  | .jobj kvs => jsonKeys kvs
  | _ => []

/-- The keys of a Python dict spine, in order. -/
def pyKeys : PyKVList → List String
  | .nil => []
  | .cons k _ rest => k :: pyKeys rest

/-!
## Derived observations used to state the properties
-/

/-- Whether a resolved target value is a float that `numpy.isfinite` accepts:
this is the keep/drop criterion of `_filter_nonfinite`. -/
def targetFinite : TargetVal → Bool
  | .num x => x.isFinite
  | .nonconvertible _ => false

/-- Dict lookup on a `name → bool` table, as an `Option`. -/
def boolTableFind (m : List (String × Bool)) (k : String) : Option Bool :=
  (m.find? (fun kv => kv.1 = k)).map (fun kv => kv.2)

/-- The first distribution observed for a parameter name in the traversal
order of `_preprocess_trial_params` (trials in order, each trial's
distribution items in order). -/
def firstDist (trials : List Trial) (param : String) : Option Distribution :=
  ((trials.flatMap (fun t => t.distributions)).find? (fun kv => kv.1 = param)).map
    (fun kv => kv.2)

/-!
## C1 — `_get_param_values`
-/

/-- A completed trial whose `params` contain the requested name `"x"` with the
int value `1`: the input on which the claimed contract would return `[1]`. -/
def c1Trial : Trial :=
  { number := 0, values := [.finite 1], value := .num (.finite 1),
    params := [("x", .int 1)], distributions := [("x", .intDist false)],
    user_attrs := [] }

/-- C1: `_get_param_values` cannot return the parameter values: its guard
calls `_is_numerical(trials, p_name)` while `_is_numerical` demands a third
positional argument, so the call raises `TypeError` on every input — here on
a trial that defines `"x"` (whose raw value list is `[1]`, as the claimed
contract would return). -/
theorem get_param_values_always_raises :
    _get_param_values [c1Trial] "x" = Except.error PyError.typeError ∧
    paramValuesRaw [c1Trial] "x" = [PyVal.int 1] :=
  ⟨rfl, rfl⟩

/-!
## C3 — `_get_skipped_trial_numbers`
-/

lemma skipped_foldl_mem (used : List String) (trials : List Trial)
    (acc : Finset ℕ) (n : ℕ) :
    (n ∈ trials.foldl
      (fun skipped trial =>
        if used.any (fun p => !dictContains trial.params p) then
          insert trial.number skipped
        else skipped)
      acc) ↔
      n ∈ acc ∨ ∃ t ∈ trials, t.number = n ∧
        ∃ p ∈ used, dictContains t.params p = false := by
  induction trials generalizing acc with
  | nil => simp
  | cons t rest ih =>
      simp only [List.foldl_cons]
      rw [ih]
      by_cases h : used.any (fun p => !dictContains t.params p)
      · simp only [h, if_pos, Finset.mem_insert]
        rw [List.any_eq_true] at h
        obtain ⟨p, hp, hmiss⟩ := h
        rw [Bool.not_eq_true'] at hmiss
        constructor
        · rintro ((rfl | hacc) | hrest)
          · exact Or.inr ⟨t, by simp, rfl, p, hp, hmiss⟩
          · exact Or.inl hacc
          · obtain ⟨u, hu, h1, h2⟩ := hrest
            exact Or.inr ⟨u, List.mem_cons_of_mem _ hu, h1, h2⟩
        · rintro (hacc | ⟨u, hu, h1, h2⟩)
          · exact Or.inl (Or.inr hacc)
          · rcases List.mem_cons.mp hu with rfl | hu'
            · exact Or.inl (Or.inl h1.symm)
            · exact Or.inr ⟨u, hu', h1, h2⟩
      · simp only [h, if_neg, Bool.false_eq_true, not_false_iff]
        constructor
        · rintro (hacc | ⟨u, hu, h1, h2⟩)
          · exact Or.inl hacc
          · exact Or.inr ⟨u, List.mem_cons_of_mem _ hu, h1, h2⟩
        · rintro (hacc | ⟨u, hu, h1, p, hp, h2⟩)
          · exact Or.inl hacc
          · rcases List.mem_cons.mp hu with rfl | hu'
            · exact absurd (List.any_eq_true.mpr ⟨p, hp, by simp [h2]⟩) h
            · exact Or.inr ⟨u, hu', h1, p, hp, h2⟩

/-- C3: a number is in `_get_skipped_trial_numbers trials used` exactly when
some trial of that number lacks at least one of the used parameter names; in
particular a trial with every used name present contributes nothing. -/
theorem get_skipped_trial_numbers_spec (trials : List Trial)
    (used_param_names : List String) (n : ℕ) :
    n ∈ _get_skipped_trial_numbers trials used_param_names ↔
      ∃ t ∈ trials, t.number = n ∧
        ∃ p ∈ used_param_names, dictContains t.params p = false := by
  unfold _get_skipped_trial_numbers
  rw [skipped_foldl_mem]
  simp

/-!
## C4 / C6 — `_preprocess_trial_params`
-/

lemma boolTableContains_iff (m : List (String × Bool)) (k : String) :
    boolTableContains m k = true ↔
      (m.find? (fun kv => kv.1 = k)).isSome = true := by
  simp [boolTableContains, List.any_eq_true, List.find?_isSome]

lemma boolTableFind_append_single (m : List (String × Bool)) (k k' : String)
    (v : Bool) :
    boolTableFind (boolTableSet m k v) k' =
      (boolTableFind m k').or (if k = k' then some v else none) := by
  unfold boolTableFind boolTableSet
  rw [List.find?_append]
  cases hf : m.find? (fun kv => kv.1 = k') with
  | some kv => simp [Option.or]
  | none =>
      by_cases hk : k = k' <;>
        simp [List.find?_cons, hk, Option.or]

lemma stepTable_foldl_find (f : Distribution → Bool)
    (items : List (String × Distribution)) (m : List (String × Bool))
    (param : String) :
    boolTableFind (items.foldl (stepTable f) m) param =
      (boolTableFind m param).or
        ((items.find? (fun kv => kv.1 = param)).map (fun kv => f kv.2)) := by
  induction items generalizing m with
  | nil => simp [Option.or_none]
  | cons item rest ih =>
      obtain ⟨k, d⟩ := item
      simp only [List.foldl_cons]
      rw [ih]
      by_cases hk : k = param
      · subst hk
        by_cases hc : boolTableContains m k = true
        · rw [stepTable, if_pos hc]
          have hs : (m.find? (fun kv => kv.1 = k)).isSome = true :=
            (boolTableContains_iff m k).mp hc
          obtain ⟨kv, hkv⟩ := Option.isSome_iff_exists.mp hs
          rw [List.find?_cons_of_pos _ (by simp)]
          simp [boolTableFind, hkv, Option.or]
        · rw [stepTable, if_neg hc]
          have hnone : m.find? (fun kv => kv.1 = k) = none := by
            rcases h : m.find? (fun kv => kv.1 = k) with _ | kv
            · exact h
            · exact absurd ((boolTableContains_iff m k).mpr (by simp [h])) hc
          rw [boolTableFind_append_single]
          rw [List.find?_cons_of_pos _ (by simp)]
          simp [boolTableFind, hnone, Option.or]
      · have hstep : boolTableFind (stepTable f m (k, d)) param =
            boolTableFind m param := by
          rw [stepTable]
          split
          · rfl
          · rw [boolTableFind_append_single]
            simp [hk]
        rw [hstep, List.find?_cons_of_neg _ (by simp [hk])]

lemma foldl_preprocessStep (items : List (String × Distribution))
    (acc : List (String × Bool) × List (String × Bool)) :
    items.foldl preprocessStep acc =
      (items.foldl (stepTable classifyLog) acc.1,
       items.foldl (stepTable classifyNum) acc.2) := by
  induction items generalizing acc with
  | nil => rfl
  | cons item rest ih => simp [List.foldl_cons, ih, preprocessStep]

lemma foldl_over_flatMap {α β γ : Type} (g : γ → β → γ) (f : α → List β)
    (l : List α) (init : γ) :
    (l.flatMap f).foldl g init = l.foldl (fun acc x => (f x).foldl g acc) init := by
  induction l generalizing init with
  | nil => rfl
  | cons x rest ih => simp [List.flatMap_cons, List.foldl_append, ih]

lemma preprocess_eq_flat (trials : List Trial) :
    _preprocess_trial_params trials =
      ((trials.flatMap (fun t => t.distributions)).foldl (stepTable classifyLog) [],
       (trials.flatMap (fun t => t.distributions)).foldl (stepTable classifyNum) []) := by
  unfold _preprocess_trial_params
  rw [show (fun (acc : List (String × Bool) × List (String × Bool)) (trial : Trial) =>
        trial.distributions.foldl preprocessStep acc) =
      (fun acc trial => trial.distributions.foldl preprocessStep acc) from rfl]
  have h := foldl_over_flatMap preprocessStep (fun t : Trial => t.distributions) trials
    (([], []) : List (String × Bool) × List (String × Bool))
  rw [← h, foldl_preprocessStep]

lemma preprocess_find_log (trials : List Trial) (param : String) :
    boolTableFind (_preprocess_trial_params trials).1 param =
      (firstDist trials param).map classifyLog := by
  rw [preprocess_eq_flat]
  show boolTableFind _ param = _
  rw [stepTable_foldl_find]
  cases hf : (trials.flatMap (fun t => t.distributions)).find?
      (fun kv => kv.1 = param) with
  | none => simp [boolTableFind, firstDist, hf]
  | some kv => simp [boolTableFind, firstDist, hf]

lemma preprocess_find_num (trials : List Trial) (param : String) :
    boolTableFind (_preprocess_trial_params trials).2 param =
      (firstDist trials param).map classifyNum := by
  rw [preprocess_eq_flat]
  show boolTableFind _ param = _
  rw [stepTable_foldl_find]
  cases hf : (trials.flatMap (fun t => t.distributions)).find?
      (fun kv => kv.1 = param) with
  | none => simp [boolTableFind, firstDist, hf]
  | some kv => simp [boolTableFind, firstDist, hf]

/-- Trial 0 of the C4 scenario: `"x"` with a Float distribution, `log=True`. -/
def c4Trial0 : Trial :=
  { number := 0, values := [.finite 1], value := .num (.finite 1),
    params := [("x", .float (.finite 1))],
    distributions := [("x", .floatDist true)], user_attrs := [] }

/-- Trial 1 of the C4 scenario: `"x"` with a Float distribution, `log=False`. -/
def c4Trial1 : Trial :=
  { number := 1, values := [.finite 2], value := .num (.finite 2),
    params := [("x", .float (.finite 2))],
    distributions := [("x", .floatDist false)], user_attrs := [] }

/-- C4: the tables built by `_preprocess_trial_params` are determined, per
parameter name, by the first distribution observed for that name in traversal
order — a later distribution never overwrites the entry; in particular, with
`"x"` log-scaled in trial 0 and not in trial 1, `is_log_scale["x"]` is
`True`. -/
theorem preprocess_first_seen_wins :
    (∀ (trials : List Trial) (param : String),
      boolTableFind (_preprocess_trial_params trials).1 param =
        (firstDist trials param).map classifyLog ∧
      boolTableFind (_preprocess_trial_params trials).2 param =
        (firstDist trials param).map classifyNum) ∧
    boolTableFind (_preprocess_trial_params [c4Trial0, c4Trial1]).1 "x" =
      some true := by
  refine ⟨fun trials param => ⟨preprocess_find_log trials param,
    preprocess_find_num trials param⟩, ?_⟩
  rfl

/-- C6: for a parameter name first observed with distribution `d`, the
`is_numerical` entry is `classifyNum d`: `True` for Float/Int distributions,
and for a Categorical one `True` exactly when every choice is a real number
and not a boolean; and every distribution is one of these three kinds, so the
`assert False` branch is unreachable. -/
theorem preprocess_is_numerical_first_seen (trials : List Trial) (param : String)
    (d : Distribution) (h : firstDist trials param = some d) :
    boolTableFind (_preprocess_trial_params trials).2 param =
      some (classifyNum d) ∧
    (∀ lg, d = .floatDist lg → classifyNum d = true) ∧
    (∀ lg, d = .intDist lg → classifyNum d = true) ∧
    (∀ choices, d = .categoricalDist choices →
      (classifyNum d = true ↔ ∀ v ∈ choices, v.isRealNumber = true)) ∧
    (∀ d' : Distribution, (∃ lg, d' = .floatDist lg) ∨ (∃ lg, d' = .intDist lg) ∨
      ∃ cs, d' = .categoricalDist cs) := by
  refine ⟨?_, ?_, ?_, ?_, ?_⟩
  · rw [preprocess_find_num, h]
    rfl
  · rintro lg rfl; rfl
  · rintro lg rfl; rfl
  · rintro choices rfl
    simp [classifyNum, List.all_eq_true]
  · intro d'
    cases d' with
    | floatDist lg => exact Or.inl ⟨lg, rfl⟩
    | intDist lg => exact Or.inr (Or.inl ⟨lg, rfl⟩)
    | categoricalDist cs => exact Or.inr (Or.inr ⟨cs, rfl⟩)

/-- A trial declaring a categorical parameter `"c"` whose choices include a
boolean, so its `is_numerical` entry is `False`. -/
def c6Trial : Trial :=
  { number := 0, values := [.finite 1], value := .num (.finite 1),
    params := [("c", .bool true)],
    distributions := [("c", .categoricalDist [.bool true, .int 2])],
    user_attrs := [] }

/-- Witness for C6 at a concrete input: the categorical distribution of `"c"`
contains a boolean choice, so `is_numerical["c"]` is `False`. -/
theorem preprocess_is_numerical_first_seen_witness :
    boolTableFind (_preprocess_trial_params [c6Trial]).2 "c" = some false := by
  have h := preprocess_is_numerical_first_seen [c6Trial] "c"
    (.categoricalDist [.bool true, .int 2]) rfl
  simpa using h.1

/-!
## C5 — `_check_plot_args`
-/

/-- C5: `_check_plot_args` raises exactly when no target accessor is supplied
and at least one study is multi-objective (and the raised error is always
that `ValueError`); when a target accessor is supplied while the display name
still equals the default `"Objective Value"`, it returns normally with
exactly the advisory warning. -/
theorem check_plot_args_spec (studies : List Study)
    (target : Option (Trial → TargetVal)) (target_name : String) :
    ((∃ e, _check_plot_args studies target target_name = .error e) ↔
      (target = Option.none ∧ ∃ s ∈ studies, s.isMultiObjective = true)) ∧
    (∀ e, _check_plot_args studies target target_name = .error e →
      e = PyError.valueError) ∧
    (target.isSome = true → target_name = "Objective Value" →
      _check_plot_args studies target target_name =
        .ok [PyWarning.defaultTargetName]) := by
  unfold _check_plot_args
  by_cases h1 : (target.isNone && studies.any (fun s => s.isMultiObjective)) = true
  · rw [if_pos h1]
    rw [Bool.and_eq_true] at h1
    obtain ⟨hn, ha⟩ := h1
    refine ⟨?_, ?_, ?_⟩
    · constructor
      · intro _
        exact ⟨Option.isNone_iff_eq_none.mp hn, by simpa [List.any_eq_true] using ha⟩
      · intro _
        exact ⟨PyError.valueError, rfl⟩
    · intro e he
      exact (Except.error.injEq _ _).mp he.symm
    · intro hs
      rw [Option.isNone_iff_eq_none.mp hn] at hs
      simp at hs
  · rw [if_neg h1]
    refine ⟨?_, ?_, ?_⟩
    · constructor
      · rintro ⟨e, he⟩
        split at he <;> exact absurd he (by simp)
      · rintro ⟨hn, s, hs, hm⟩
        exact absurd (by simp [hn, List.any_eq_true]; exact ⟨s, hs, hm⟩) h1
    · intro e he
      split at he <;> exact absurd he (by simp)
    · intro hs hname
      rw [if_pos (by simp [hs, hname])]

/-- Witness for C5: with one multi-objective study and no accessor the call
raises; with an accessor supplied and the default display name it returns
the advisory warning. -/
theorem check_plot_args_spec_witness :
    (∃ e, _check_plot_args [⟨true⟩] Option.none "Objective Value" = .error e) ∧
    _check_plot_args [⟨true⟩] (some defaultTarget) "Objective Value" =
      .ok [PyWarning.defaultTargetName] := by
  constructor
  · exact (check_plot_args_spec [⟨true⟩] Option.none "Objective Value").1.mpr
      ⟨rfl, ⟨⟨true⟩, by simp, rfl⟩⟩
  · exact (check_plot_args_spec [⟨true⟩] (some defaultTarget)
      "Objective Value").2.2 rfl rfl

/-!
## C2 / C7 — `_filter_nonfinite`
-/

lemma filterLoop_ok (tgt : Trial → TargetVal) (wm : Bool) :
    ∀ trials : List Trial, (∀ t ∈ trials, ∃ x, tgt t = .num x) →
      filterLoop tgt wm trials =
        { warns := [],
          logs := if wm then
              (trials.filter (fun t => !targetFinite (tgt t))).map
                (fun t => LogMsg.omittedNonfinite t.number)
            else [],
          result := .ok (trials.filter (fun t => targetFinite (tgt t))) } := by
  intro trials
  induction trials with
  | nil => intro _; simp [filterLoop]
  | cons t rest ih =>
      intro h
      obtain ⟨x, hx⟩ := h t (by simp)
      have hrest := ih (fun u hu => h u (List.mem_cons_of_mem _ hu))
      simp only [filterLoop, hx, pyFloatCast]
      rw [hrest]
      by_cases hf : x.isFinite = true
      · simp [targetFinite, hx, hf, List.filter_cons, Except.map]
      · simp only [targetFinite, hx, hf, List.filter_cons, Bool.not_false,
          Bool.false_eq_true, if_false, if_true, Except.map]
        cases wm <;> simp [hf]

/-- C2: when every resolved target value converts to a float,
`_filter_nonfinite` returns (without raising) exactly the input filtered to
the trials with a finite target — a sublist of the input that contains a
trial iff its resolved target is finite — and, when the message flag is set,
emits one log message per dropped trial identifying its number (and no
`warnings.warn` message at all). -/
theorem filter_nonfinite_spec (trials : List Trial)
    (target : Option (Trial → TargetVal)) (with_message : Bool)
    (h : ∀ t ∈ trials, ∃ x, resolveTarget target t = .num x) :
    (_filter_nonfinite trials target with_message).result =
      .ok (trials.filter (fun t => targetFinite (resolveTarget target t))) ∧
    (trials.filter (fun t => targetFinite (resolveTarget target t))).Sublist
      trials ∧
    (∀ t, t ∈ trials.filter (fun t => targetFinite (resolveTarget target t)) ↔
      t ∈ trials ∧ targetFinite (resolveTarget target t) = true) ∧
    (_filter_nonfinite trials target with_message).warns = [] ∧
    (with_message = true →
      (_filter_nonfinite trials target with_message).logs =
        (trials.filter (fun t => !targetFinite (resolveTarget target t))).map
          (fun t => LogMsg.omittedNonfinite t.number)) := by
  have hloop := filterLoop_ok (target.getD defaultTarget) with_message trials h
  unfold _filter_nonfinite
  rw [hloop]
  refine ⟨rfl, List.filter_sublist _, ?_, rfl, ?_⟩
  · intro t
    exact List.mem_filter
  · intro hwm
    rw [hwm]
    rfl

/-- A completed trial with a finite objective value. -/
def c2Finite : Trial :=
  { number := 0, values := [.finite 1], value := .num (.finite 1),
    params := [], distributions := [], user_attrs := [] }

/-- A completed trial whose objective value is `inf`. -/
def c2Inf : Trial :=
  { number := 1, values := [.inf], value := .num .inf,
    params := [], distributions := [], user_attrs := [] }

/-- Witness for C2: with a finite-valued trial and an `inf`-valued trial,
`_filter_nonfinite` keeps exactly the finite one and logs the dropped
trial's number. -/
theorem filter_nonfinite_spec_witness :
    (_filter_nonfinite [c2Finite, c2Inf] Option.none true).result =
      .ok [c2Finite] ∧
    (_filter_nonfinite [c2Finite, c2Inf] Option.none true).logs =
      [LogMsg.omittedNonfinite 1] := by
  have h := filter_nonfinite_spec [c2Finite, c2Inf] Option.none true
    (by
      intro t ht
      rcases List.mem_cons.mp ht with rfl | ht'
      · exact ⟨_, rfl⟩
      · rcases List.mem_cons.mp ht' with rfl | ht''
        · exact ⟨_, rfl⟩
        · exact absurd ht'' (List.not_mem_nil _))
  refine ⟨?_, ?_⟩
  · rw [h.1]
    rfl
  · rw [h.2.2.2.2 rfl]
    rfl

lemma filterLoop_error (tgt : Trial → TargetVal) (wm : Bool) (t : Trial)
    (rest : List Trial) (e : PyError) (ht : tgt t = .nonconvertible e) :
    ∀ pre : List Trial, (∀ u ∈ pre, ∃ x, tgt u = .num x) →
      (filterLoop tgt wm (pre ++ t :: rest)).result = .error e ∧
      (filterLoop tgt wm (pre ++ t :: rest)).warns =
        [PyWarning.castFail t.number] := by
  intro pre
  induction pre with
  | nil =>
      intro _
      simp [filterLoop, ht, pyFloatCast]
  | cons u pre' ih =>
      intro h
      obtain ⟨x, hx⟩ := h u (by simp)
      have ihr := ih (fun v hv => h v (List.mem_cons_of_mem _ hv))
      simp only [List.cons_append, filterLoop, hx, pyFloatCast]
      by_cases hf : x.isFinite = true
      · rw [if_pos hf]
        obtain ⟨h1, h2⟩ := ihr
        constructor
        · show Except.map (fun l => u :: l)
            ((filterLoop tgt wm (pre' ++ t :: rest)).result) = Except.error e
          rw [h1]
          rfl
        · exact h2
      · rw [if_neg hf]
        exact ihr

/-- C7: when some trial's resolved target value fails float conversion (all
earlier trials converting), `_filter_nonfinite` emits exactly one warning
naming that trial's number and re-raises the same `TypeError`/`ValueError`
to the caller. -/
theorem filter_nonfinite_conversion_failure (pre : List Trial) (t : Trial)
    (rest : List Trial) (target : Option (Trial → TargetVal))
    (with_message : Bool) (e : PyError)
    (hpre : ∀ u ∈ pre, ∃ x, resolveTarget target u = .num x)
    (ht : resolveTarget target t = .nonconvertible e) :
    (_filter_nonfinite (pre ++ t :: rest) target with_message).result =
      .error e ∧
    (_filter_nonfinite (pre ++ t :: rest) target with_message).warns =
      [PyWarning.castFail t.number] := by
  unfold _filter_nonfinite
  exact filterLoop_error (target.getD defaultTarget) with_message t rest e ht
    pre hpre

/-- A finite-valued trial preceding the failing one in the C7 witness. -/
def c7Ok : Trial :=
  { number := 2, values := [.finite 5], value := .num (.finite 5),
    params := [], distributions := [], user_attrs := [] }

/-- A trial whose `value` is not convertible to float (e.g. a failed trial
whose value is `None`), so `float(value)` raises `TypeError`. -/
def c7Bad : Trial :=
  { number := 3, values := [], value := .nonconvertible .typeError,
    params := [], distributions := [], user_attrs := [] }

/-- Witness for C7: with a convertible trial followed by a non-convertible
one, the call warns about trial 3 and re-raises the `TypeError`. -/
theorem filter_nonfinite_conversion_failure_witness :
    (_filter_nonfinite [c7Ok, c7Bad] Option.none true).result =
      .error PyError.typeError ∧
    (_filter_nonfinite [c7Ok, c7Bad] Option.none true).warns =
      [PyWarning.castFail 3] := by
  have h := filter_nonfinite_conversion_failure [c7Ok] c7Bad [] Option.none
    true PyError.typeError
    (by
      intro u hu
      rcases List.mem_cons.mp hu with rfl | hu'
      · exact ⟨_, rfl⟩
      · exact absurd hu' (List.not_mem_nil _))
    rfl
  exact h

/-!
## C9 — `_make_json_compatible`
-/

mutual
theorem ofJson_toJson : ∀ (v : PyVal) (j : Json), toJson v = some j → ofJson j = v
  | .none, j, h => by
      simp only [toJson, Option.some.injEq] at h
      subst h
      rfl
  | .bool b, j, h => by
      simp only [toJson, Option.some.injEq] at h
      subst h
      rfl
  | .int n, j, h => by
      simp only [toJson, Option.some.injEq] at h
      subst h
      rfl
  | .float x, j, h => by
      simp only [toJson, Option.some.injEq] at h
      subst h
      rfl
  | .str s, j, h => by
      simp only [toJson, Option.some.injEq] at h
      subst h
      rfl
  | .vlist xs, j, h => by
      simp only [toJson] at h
      cases hxs : toJsonList xs with
      | none => rw [hxs] at h; simp at h
      | some js =>
          rw [hxs] at h
          simp only [Option.map_some', Option.some.injEq] at h
          subst h
          simp only [ofJson]
          rw [ofJsonList_toJsonList xs js hxs]
  | .vdict kvs, j, h => by
      simp only [toJson] at h
      cases hkv : toJsonKV kvs with
      | none => rw [hkv] at h; simp at h
      | some js =>
          rw [hkv] at h
          simp only [Option.map_some', Option.some.injEq] at h
          subst h
          simp only [ofJson]
          rw [ofJsonKV_toJsonKV kvs js hkv]
  | .obj r, j, h => by simp [toJson] at h

theorem ofJsonList_toJsonList :
    ∀ (xs : PyValList) (js : JsonList), toJsonList xs = some js → ofJsonList js = xs
  | .nil, js, h => by
      simp only [toJsonList, Option.some.injEq] at h
      subst h
      rfl
  | .cons v rest, js, h => by
      simp only [toJsonList] at h
      cases hv : toJson v with
      | none => rw [hv] at h; simp at h
      | some jv =>
          cases hr : toJsonList rest with
          | none => rw [hv, hr] at h; simp at h
          | some jr =>
              rw [hv, hr] at h
              simp only [Option.some.injEq] at h
              subst h
              simp only [ofJsonList]
              rw [ofJson_toJson v jv hv, ofJsonList_toJsonList rest jr hr]

theorem ofJsonKV_toJsonKV :
    ∀ (kvs : PyKVList) (js : JsonKVList), toJsonKV kvs = some js → ofJsonKV js = kvs
  | .nil, js, h => by
      simp only [toJsonKV, Option.some.injEq] at h
      subst h
      rfl
  | .cons k v rest, js, h => by
      simp only [toJsonKV] at h
      cases hv : toJson v with
      | none => rw [hv] at h; simp at h
      | some jv =>
          cases hr : toJsonKV rest with
          | none => rw [hv, hr] at h; simp at h
          | some jr =>
              rw [hv, hr] at h
              simp only [Option.some.injEq] at h
              subst h
              simp only [ofJsonKV]
              rw [ofJson_toJson v jv hv, ofJsonKV_toJsonKV rest jr hr]
end

/-- C9: `_make_json_compatible` always returns a JSON-encodable value whose
decoding reproduces it; the result is the input itself exactly when the input
is directly encodable, and `str(input)` otherwise (the function is a pure
mapping of its argument). -/
theorem make_json_compatible_roundtrip (v : PyVal) :
    (∃ j, toJson (_make_json_compatible v) = some j ∧
      ofJson j = _make_json_compatible v) ∧
    ((toJson v).isSome = true → _make_json_compatible v = v) ∧
    ((toJson v).isSome = false → _make_json_compatible v = .str (pyStr v)) := by
  unfold _make_json_compatible
  cases hv : toJson v with
  | none =>
      refine ⟨⟨.jstr (pyStr v), rfl, rfl⟩, fun hs => ?_, fun _ => rfl⟩
      simp at hs
  | some j =>
      refine ⟨⟨j, hv, ofJson_toJson v j hv⟩, fun _ => rfl, fun hc => ?_⟩
      simp at hc

/-- Witness for C9 at a value `json.dumps` rejects: the fallback returns the
textual representation. -/
theorem make_json_compatible_roundtrip_witness :
    _make_json_compatible (.obj "<X>") = PyVal.str "<X>" := by
  have h := (make_json_compatible_roundtrip (.obj "<X>")).2.2 rfl
  exact h

/-!
## C8 — `_make_hovertext`
-/

lemma replaceNl_no_newline (l : List Char) : '\n' ∉ replaceNl l := by
  induction l with
  | nil => simp [replaceNl]
  | cons c rest ih =>
      by_cases hc : c = '\n'
      · simp only [replaceNl, if_pos hc, List.mem_cons]
        rintro (h | h | h | h | h) <;> first
          | exact absurd h (by decide)
          | exact ih h
      · simp only [replaceNl, if_neg hc, List.mem_cons]
        rintro (h | h)
        · exact hc h.symm
        · exact ih h

lemma replaceNl_head_ne (a : Char) (ha : a ≠ '<') (l t : List Char)
    (h : replaceNl l = a :: t) : ∃ l2, l = a :: l2 ∧ replaceNl l2 = t := by
  cases l with
  | nil => simp [replaceNl] at h
  | cons c rest =>
      by_cases hc : c = '\n'
      · rw [replaceNl, if_pos hc] at h
        injection h with h1 h2
        exact absurd h1.symm ha
      · rw [replaceNl, if_neg hc] at h
        injection h with h1 h2
        exact ⟨rest, by rw [h1], h2⟩

lemma undoBr_cons_ne (c : Char) (l : List Char) (h : c ≠ '<') :
    undoBr (c :: l) = c :: undoBr l := by
  conv_lhs => unfold undoBr
  split
  · rename_i x rest heq
    injection heq with h1 h2
    exact absurd h1 h
  · rename_i x1 c2 rest2 hno heq
    injection heq with h1 h2
    subst h1
    subst h2
    rfl
  · rename_i x heq
    exact absurd heq (by simp)

lemma undoBr_lt_cons (l : List Char)
    (hno : ∀ t : List Char, l ≠ 'b' :: 'r' :: '>' :: t) :
    undoBr ('<' :: l) = '<' :: undoBr l := by
  conv_lhs => unfold undoBr
  split
  · rename_i x rest heq
    injection heq with h1 h2
    exact absurd h2 (hno rest)
  · rename_i x1 c2 rest2 hno2 heq
    injection heq with h1 h2
    subst h1
    subst h2
    rfl
  · rename_i x heq
    exact absurd heq (by simp)

lemma hasBr_cons_false (c : Char) (l : List Char)
    (h : hasBr (c :: l) = false) : hasBr l = false := by
  unfold hasBr at h
  split at h
  · exact absurd h (by simp)
  · rename_i x c2 rest2 hno heq
    injection heq with h1 h2
    rw [h2]
    exact h
  · rename_i x heq
    exact absurd heq (by simp)

lemma undoBr_replaceNl (l : List Char) (h : hasBr l = false) :
    undoBr (replaceNl l) = l := by
  induction l with
  | nil => rfl
  | cons c rest ih =>
      have hrest : hasBr rest = false := hasBr_cons_false c rest h
      by_cases hc : c = '\n'
      · subst hc
        rw [replaceNl, if_pos rfl]
        rw [show undoBr ('<' :: 'b' :: 'r' :: '>' :: replaceNl rest) =
            '\n' :: undoBr (replaceNl rest) from rfl]
        rw [ih hrest]
      · rw [replaceNl, if_neg hc]
        by_cases hlt : c = '<'
        · subst hlt
          have hno : ∀ t : List Char, replaceNl rest ≠ 'b' :: 'r' :: '>' :: t := by
            intro t ht
            obtain ⟨r1, hr1, hrep1⟩ := replaceNl_head_ne 'b' (by decide) rest _ ht
            obtain ⟨r2, hr2, hrep2⟩ := replaceNl_head_ne 'r' (by decide) r1 _ hrep1
            obtain ⟨r3, hr3, hrep3⟩ := replaceNl_head_ne '>' (by decide) r2 _ hrep2
            rw [hr1, hr2, hr3] at h
            exact Bool.noConfusion (show true = false from h)
          rw [undoBr_lt_cons (replaceNl rest) hno, ih hrest]
        · rw [undoBr_cons_ne c (replaceNl rest) hlt, ih hrest]

theorem toJsonKV_keys :
    ∀ (kvs : PyKVList) (js : JsonKVList), toJsonKV kvs = some js →
      jsonKeys js = pyKeys kvs
  | .nil, js, h => by
      simp only [toJsonKV, Option.some.injEq] at h
      subst h
      rfl
  | .cons k v rest, js, h => by
      simp only [toJsonKV] at h
      cases hv : toJson v with
      | none => rw [hv] at h; simp at h
      | some jv =>
          cases hr : toJsonKV rest with
          | none => rw [hv, hr] at h; simp at h
          | some jr =>
              rw [hv, hr] at h
              simp only [Option.some.injEq] at h
              subst h
              simp only [jsonKeys, pyKeys]
              rw [toJsonKV_keys rest jr hr]

lemma pyKeys_ofList (l : List (String × PyVal)) :
    pyKeys (PyKVList.ofList l) = l.map Prod.fst := by
  induction l with
  | nil => rfl
  | cons kv rest ih =>
      obtain ⟨k, v⟩ := kv
      simp [PyKVList.ofList, pyKeys, ih]

lemma toJson_vdict (kvs : PyKVList) (j : Json)
    (h : toJson (.vdict kvs) = some j) :
    ∃ js, toJsonKV kvs = some js ∧ j = Json.jobj js := by
  simp only [toJson] at h
  cases hkv : toJsonKV kvs with
  | none => rw [hkv] at h; simp at h
  | some js =>
      rw [hkv] at h
      simp only [Option.map_some', Option.some.injEq] at h
      exact ⟨js, rfl, h.symm⟩

lemma toJsonKV_cons_int (k : String) (n : ℤ) (rest : PyKVList)
    (js : JsonKVList)
    (h : toJsonKV (PyKVList.cons k (PyVal.int n) rest) = some js) :
    ∃ jr, js = JsonKVList.cons k (Json.jint n) jr := by
  simp only [toJsonKV, toJson] at h
  cases hr : toJsonKV rest with
  | none => rw [hr] at h; simp at h
  | some jr =>
      rw [hr] at h
      simp only [Option.some.injEq] at h
      exact ⟨jr, h.symm⟩

/-- C8: on success, the hovertext contains no literal newline; replacing each
`"<br>"` marker back with a newline recovers the indented JSON serialization
of the hover document, which is a JSON object whose first entry is the
trial's number and whose keys are number, values, params, plus a
`"user_attrs"` key exactly when the trial's user attributes are non-empty. -/
theorem make_hovertext_spec (trial : Trial) (s : String)
    (h1 : _make_hovertext trial = .ok s)
    (h2 : ∀ j, toJson (hoverVal trial) = some j → hasBr (dumpJson 0 j) = false) :
    ('\n' ∉ s.data) ∧
    ∃ j, toJson (hoverVal trial) = some j ∧
      s.data = replaceNl (dumpJson 0 j) ∧
      undoBr s.data = dumpJson 0 j ∧
      (∃ restkv, j = Json.jobj
        (JsonKVList.cons "number" (Json.jint trial.number) restkv)) ∧
      topKeys j = ["number", "values", "params"] ++
        (if trial.user_attrs.isEmpty then [] else ["user_attrs"]) := by
  unfold _make_hovertext at h1
  cases hj : toJson (hoverVal trial) with
  | none =>
      rw [hj] at h1
      exact absurd h1 (by simp)
  | some j =>
      rw [hj] at h1
      have hs : s = String.mk (replaceNl (dumpJson 0 j)) := by
        injection h1 with h1a
        exact h1a.symm
      subst hs
      have hbr : hasBr (dumpJson 0 j) = false := h2 j hj
      obtain ⟨js, hkv, rfl⟩ :=
        toJson_vdict (PyKVList.ofList (hoverEntries trial)) j hj
      refine ⟨replaceNl_no_newline _, Json.jobj js, rfl, rfl,
        undoBr_replaceNl _ hbr, ?_, ?_⟩
      · obtain ⟨jr, hjr⟩ := toJsonKV_cons_int "number" trial.number
          (PyKVList.ofList (hoverEntries trial).tail) js hkv
        exact ⟨jr, by rw [hjr]⟩
      · show jsonKeys js = _
        rw [toJsonKV_keys _ js hkv, pyKeys_ofList]
        unfold hoverEntries
        cases hua : trial.user_attrs with
        | nil => simp
        | cons a l => simp

/-- The trial of the C8 witness: one parameter, one objective value, one user
attribute. -/
def c8Trial : Trial :=
  { number := 4, values := [.finite 2], value := .num (.finite 2),
    params := [("p", .str "v")], distributions := [],
    user_attrs := [("u", .int 1)] }

/-- The hovertext the source produces for `c8Trial`. -/
def c8Text : String :=
  match _make_hovertext c8Trial with
  | .ok s => s
  | .error _ => ""

/-- The JSON document serialized for `c8Trial`. -/
def c8Json : Json := (toJson (hoverVal c8Trial)).getD Json.null

/-- Witness for C8 at a concrete trial: the hovertext has no newline, undoing
the `"<br>"` substitution recovers the serialized document, and the key set
includes `"user_attrs"` since the trial has a user attribute. -/
theorem make_hovertext_spec_witness :
    _make_hovertext c8Trial = Except.ok c8Text ∧
    '\n' ∉ c8Text.data ∧
    undoBr c8Text.data = dumpJson 0 c8Json ∧
    topKeys c8Json = ["number", "values", "params", "user_attrs"] := by
  have hs : _make_hovertext c8Trial = Except.ok c8Text := rfl
  have hj : toJson (hoverVal c8Trial) = some c8Json := rfl
  have h := make_hovertext_spec c8Trial c8Text hs
    (by
      intro j hjj
      rw [hj] at hjj
      injection hjj with h2
      subst h2
      rfl)
  obtain ⟨hnl, j, hj2, hrep, hundo, hnum, hkeys⟩ := h
  rw [hj] at hj2
  injection hj2 with hj3
  subst hj3
  exact ⟨hs, hnl, hundo, by rw [hkeys]; rfl⟩

/-!
## C10 — non-encodable parameter values in `_make_hovertext`
-/

/-- A value `json.dumps` cannot encode (an arbitrary object). -/
def c10Obj : PyVal := .obj "<MyObject>"

/-- A trial carrying the non-encodable value as a parameter value. -/
def c10ParamTrial : Trial :=
  { number := 0, values := [.finite 1], value := .num (.finite 1),
    params := [("x", c10Obj)], distributions := [], user_attrs := [] }

/-- The same trial but with the non-encodable value as a user attribute. -/
def c10AttrTrial : Trial :=
  { number := 0, values := [.finite 1], value := .num (.finite 1),
    params := [], distributions := [], user_attrs := [("x", c10Obj)] }

/-- C10: a non-JSON-encodable parameter value makes `_make_hovertext` raise
`TypeError` — parameter values are serialized directly — while the same
value as a user attribute goes through the `_make_json_compatible` fallback
and the call succeeds. -/
theorem make_hovertext_param_not_encodable :
    toJson c10Obj = Option.none ∧
    _make_hovertext c10ParamTrial = .error PyError.typeError ∧
    (_make_hovertext c10AttrTrial).isOk = true :=
  ⟨rfl, rfl, rfl⟩

end OptunaViz
